import Mathlib

/-!
Verification development for the Letterboxd list-scraping pipeline in
`api/fetch-list.js`.  Strings are modelled as `List Char`; the JavaScript
string primitives used by the code (`startsWith`, `includes`,
`replace(/lit/, r)` without the global flag, `replace(/lit/g, r)` with it)
are embedded as executable functions on `List Char`.
-/

/-- Embedding of JS `s.startsWith(p)` (also used for literal matching at a
position): `isPre p s` is true iff `p` is a prefix of `s`. -/
def isPre : List Char → List Char → Bool
  | [], _ => true
  | _ :: _, [] => false
  | a :: as, b :: bs => a == b && isPre as bs

/-- Embedding of JS `s.includes(p)`: `p` occurs contiguously in `s`. -/
def containsSub (pat : List Char) : List Char → Bool
  | [] => pat.isEmpty
  | c :: rest => isPre pat (c :: rest) || containsSub pat rest

/-- Embedding of JS `s.replace(/pat/, rep)` for a literal pattern without the
`g` flag: only the first occurrence is replaced. -/
def replaceFirstL (pat rep : List Char) : List Char → List Char
  | [] => []
  | c :: rest =>
    if isPre pat (c :: rest) then rep ++ (c :: rest).drop pat.length
    else c :: replaceFirstL pat rep rest

/-- The remainder of the string after the first occurrence of `pat`
(everything if there is none).  Used to state "at most one occurrence". -/
def restAfterFirst (pat : List Char) : List Char → List Char
  | [] => []
  | c :: rest =>
    if isPre pat (c :: rest) then (c :: rest).drop pat.length
    else restAfterFirst pat rest

/-- `pat` occurs at most once in `s`: no further occurrence after the first. -/
def atMostOneOcc (pat s : List Char) : Bool :=
  !(containsSub pat (restAfterFirst pat s))

/-- Fuel-driven worker for global literal replacement; the fuel only bounds
recursion depth, `s.length` is always enough. -/
def replaceAllGo (pat rep : List Char) : Nat → List Char → List Char
  | _, [] => []
  | 0, s => s
  | fuel + 1, c :: rest =>
    if !pat.isEmpty && isPre pat (c :: rest) then
      rep ++ replaceAllGo pat rep fuel ((c :: rest).drop pat.length)
    else
      c :: replaceAllGo pat rep fuel rest

/-- Embedding of JS `s.replace(/pat/g, rep)` for a literal pattern: every
occurrence is replaced, scanning left to right, never rescanning the
replacement text. -/
def replaceAllL (pat rep s : List Char) : List Char :=
  replaceAllGo pat rep s.length s

-- Literal constants appearing in `api/fetch-list.js`.

/-- The low-resolution crop token `/0-230-0-345-crop`. -/
def cropLow : List Char := "/0-230-0-345-crop".toList

/-- The high-resolution crop token `/0-500-0-750-crop`. -/
def cropHigh : List Char := "/0-500-0-750-crop".toList

/-- The canonical origin `https://letterboxd.com`. -/
def lbOrigin : List Char := "https://letterboxd.com".toList

/-- Placeholder marker `empty-poster`. -/
def phEmptyPoster : List Char := "empty-poster".toList

/-- Placeholder marker `static/img/empty`. -/
def phStaticEmpty : List Char := "static/img/empty".toList

/-- The scheme test string `http` used by `poster.startsWith('http')`. -/
def httpTok : List Char := "http".toList

/-- Second normalization step in strategy (a) (`fetch-list.js` lines 144-147):
prefix the origin when the string is non-empty and does not start with
`http`. -/
def normalizeStep2 (p1 : List Char) : List Char :=
  if !p1.isEmpty && !(isPre httpTok p1) then lbOrigin ++ p1 else p1

/-- Same step as written in strategies (b) and (c) (lines 196-198, 244-246):
the non-emptiness re-check is omitted there because the string is already
known non-empty. -/
def normalizeStep2B (p1 : List Char) : List Char :=
  if !(isPre httpTok p1) then lbOrigin ++ p1 else p1

/-- Third normalization step (lines 149-151): drop known placeholder images. -/
def normalizeStep3 (p2 : List Char) : List Char :=
  if containsSub phEmptyPoster p2 || containsSub phStaticEmpty p2 then []
  else p2

/-- The poster URL normalizer exactly as in strategy (a), lines 139-152:
empty stays empty; otherwise upgrade the first crop token, prefix the origin
when not starting with `http`, and drop placeholder images. -/
def normalizeUrl (s : List Char) : List Char :=
  if s.isEmpty then s
  else normalizeStep3 (normalizeStep2 (replaceFirstL cropLow cropHigh s))

/-- The poster URL normalizer as written in strategies (b) and (c). -/
def normalizeUrlB (s : List Char) : List Char :=
  if s.isEmpty then s
  else normalizeStep3 (normalizeStep2B (replaceFirstL cropLow cropHigh s))

/-- Link post-processing in strategies (b) and (c) (lines 208-210, 256-258):
only the origin-prefixing step is applied to links. -/
def normalizeLink (l : List Char) : List Char :=
  if !l.isEmpty && !(isPre httpTok l) then lbOrigin ++ l else l

-- Basic lemmas about `isPre`.

theorem isPre_append_self (p t : List Char) : isPre p (p ++ t) = true := by
  induction p with
  | nil => rfl
  | cons a as ih => simp [isPre, ih]

theorem isPre_eq_append {p s : List Char} (h : isPre p s = true) :
    p ++ s.drop p.length = s := by
  induction p generalizing s with
  | nil => simp
  | cons a as ih =>
    cases s with
    | nil => simp [isPre] at h
    | cons b bs =>
      simp only [isPre, Bool.and_eq_true, beq_iff_eq] at h
      obtain ⟨rfl, h2⟩ := h
      simpa [List.drop_succ_cons] using ih h2

theorem isPre_length_le {p s : List Char} (h : isPre p s = true) :
    p.length ≤ s.length := by
  induction p generalizing s with
  | nil => simp
  | cons a as ih =>
    cases s with
    | nil => simp [isPre] at h
    | cons b bs =>
      simp only [isPre, Bool.and_eq_true] at h
      simpa using ih h.2

theorem isPre_eq_of_length_le {p s : List Char} (h : isPre p s = true)
    (hl : s.length ≤ p.length) : p = s := by
  induction p generalizing s with
  | nil =>
    cases s with
    | nil => rfl
    | cons b bs => simp at hl
  | cons a as ih =>
    cases s with
    | nil => simp [isPre] at h
    | cons b bs =>
      simp only [isPre, Bool.and_eq_true, beq_iff_eq] at h
      obtain ⟨rfl, h2⟩ := h
      simp only [List.length_cons, Nat.add_le_add_iff_right] at hl
      rw [ih h2 hl]

theorem isPre_append_ext {p u : List Char} (w : List Char)
    (h : isPre p u = true) : isPre p (u ++ w) = true := by
  induction p generalizing u with
  | nil => rfl
  | cons a as ih =>
    cases u with
    | nil => simp [isPre] at h
    | cons b bs =>
      simp only [isPre, Bool.and_eq_true] at h
      simp [isPre, h.1, ih h.2]

theorem isPre_split {u p t : List Char} (h : isPre p (u ++ t) = true) :
    isPre p u = true ∨
      (isPre u p = true ∧ isPre (p.drop u.length) t = true) := by
  induction u generalizing p with
  | nil => right; exact ⟨rfl, by simpa using h⟩
  | cons b u' ih =>
    cases p with
    | nil => left; rfl
    | cons a as =>
      simp only [List.cons_append, isPre, Bool.and_eq_true, beq_iff_eq] at h
      obtain ⟨rfl, h2⟩ := h
      rcases ih h2 with h3 | ⟨h3, h4⟩
      · left; simp [isPre, h3]
      · right
        refine ⟨by simp [isPre, h3], ?_⟩
        simpa [List.drop_succ_cons] using h4

theorem isPre_ne_nil {p s : List Char} (hp : p ≠ []) (h : isPre p s = true) :
    s ≠ [] := by
  cases p with
  | nil => exact absurd rfl hp
  | cons a as =>
    cases s with
    | nil => simp [isPre] at h
    | cons b bs => simp

theorem drop_ne_nil {i : Nat} {u : List Char} (h : i < u.length) :
    u.drop i ≠ [] := by
  refine List.length_pos.mp ?_
  simpa [List.length_drop] using Nat.sub_pos_of_lt h

-- Lemmas about `containsSub`.

theorem containsSub_append_cases {p u t : List Char}
    (h : containsSub p (u ++ t) = true) :
    (∃ i, i < u.length ∧ isPre p (u.drop i ++ t) = true) ∨
      containsSub p t = true := by
  induction u with
  | nil => right; simpa using h
  | cons c u' ih =>
    simp only [List.cons_append, containsSub, Bool.or_eq_true] at h
    rcases h with h | h
    · left; exact ⟨0, by simp, by simpa using h⟩
    · rcases ih h with ⟨i, hi, hp⟩ | h2
      · left
        exact ⟨i + 1, by simpa using Nat.succ_lt_succ hi,
          by simpa [List.drop_succ_cons] using hp⟩
      · right; exact h2

-- Straddling checks: `noStraddle p a` says no suffix of `a` begins an
-- occurrence of `p` when text is appended after `a`; `noSelfStraddle p r`
-- says no proper nonempty suffix of `p` can continue into `r`.

def noStraddle (p a : List Char) : Bool :=
  (List.range a.length).all fun i =>
    !(isPre p (a.drop i)) && !(isPre (a.drop i) p)

def noSelfStraddle (p r : List Char) : Bool :=
  (List.range p.length).all fun k =>
    (k == 0) || (!(isPre (p.drop k) r) && !(isPre r (p.drop k)))

theorem noStraddle_spec {p a : List Char} (h : noStraddle p a = true)
    {i : Nat} (hi : i < a.length) :
    isPre p (a.drop i) = false ∧ isPre (a.drop i) p = false := by
  have := (List.all_eq_true.mp h) i (List.mem_range.mpr hi)
  simpa [Bool.and_eq_true, Bool.not_eq_true'] using this

theorem noSelfStraddle_spec {p r : List Char} (h : noSelfStraddle p r = true)
    {k : Nat} (hk0 : 0 < k) (hk : k < p.length) :
    isPre (p.drop k) r = false ∧ isPre r (p.drop k) = false := by
  have h1 := (List.all_eq_true.mp h) k (List.mem_range.mpr hk)
  have hk0' : (k == 0) = false := by
    simp [Nat.ne_of_gt hk0]
  rw [hk0'] at h1
  simpa [Bool.and_eq_true, Bool.not_eq_true'] using h1

theorem noStraddle_append {p a t : List Char} (hns : noStraddle p a = true)
    (ht : containsSub p t = false) : containsSub p (a ++ t) = false := by
  cases hc : containsSub p (a ++ t) with
  | false => rfl
  | true =>
    exfalso
    rcases containsSub_append_cases hc with ⟨i, hi, hp⟩ | h2
    · rcases isPre_split hp with h3 | ⟨h3, _⟩
      · exact absurd h3 (by simp [(noStraddle_spec hns hi).1])
      · exact absurd h3 (by simp [(noStraddle_spec hns hi).2])
    · rw [ht] at h2; exact Bool.false_ne_true h2

-- Lemmas about `replaceFirstL`.

theorem replaceFirst_not_contains {p r s : List Char}
    (h : containsSub p s = false) : replaceFirstL p r s = s := by
  induction s with
  | nil => rfl
  | cons c rest ih =>
    simp only [containsSub, Bool.or_eq_false_iff] at h
    simp [replaceFirstL, h.1, ih h.2]

theorem replaceFirst_ne_nil {p r s : List Char} (hr : r ≠ []) (hs : s ≠ []) :
    replaceFirstL p r s ≠ [] := by
  cases s with
  | nil => exact absurd rfl hs
  | cons c rest =>
    simp only [replaceFirstL]
    split
    · simp [List.append_eq_nil, hr]
    · simp

/-- Decomposition of a string at the first occurrence of `pat`, together with
the effect of `replaceFirstL` and `restAfterFirst`, and the fact that no
occurrence of `pat` starts strictly before the matched position. -/
theorem replaceFirst_decomp (p r : List Char) (hp : p ≠ []) :
    ∀ s : List Char, containsSub p s = true →
      ∃ v t, s = v ++ p ++ t ∧ replaceFirstL p r s = v ++ r ++ t ∧
        restAfterFirst p s = t ∧
        ∀ i, i < v.length → isPre p (v.drop i ++ p ++ t) = false := by
  intro s
  induction s with
  | nil =>
    intro h
    exfalso
    cases p with
    | nil => exact absurd rfl hp
    | cons a as => simp [containsSub] at h
  | cons c rest ih =>
    intro h
    cases hm : isPre p (c :: rest) with
    | true =>
      refine ⟨[], (c :: rest).drop p.length, ?_, ?_, ?_, ?_⟩
      · simpa using (isPre_eq_append hm).symm
      · simp [replaceFirstL, hm]
      · simp [restAfterFirst, hm]
      · intro i hi; simp at hi
    | false =>
      have hrest : containsSub p rest = true := by
        simpa [containsSub, hm] using h
      obtain ⟨v', t, hs, hrf, hra, hmin⟩ := ih hrest
      refine ⟨c :: v', t, ?_, ?_, ?_, ?_⟩
      · simp [hs]
      · simp [replaceFirstL, hm, hrf]
      · simp [restAfterFirst, hm, hra]
      · intro i hi
        cases i with
        | zero =>
          simpa [hs] using hm
        | succ j =>
          have hj : j < v'.length := by simpa using Nat.lt_of_succ_lt_succ hi
          simpa [List.drop_succ_cons] using hmin j hj

/-- Core fact behind idempotence: when `pat` occurs at most once in `s` and
neither `rep` nor `pat` itself can straddle into a new occurrence, the result
of replacing the first occurrence contains no occurrence at all. -/
theorem replaceFirst_no_more {p r : List Char} (hp : p ≠ [])
    (h1 : noStraddle p r = true) (h2 : noSelfStraddle p r = true)
    (s : List Char) (hone : containsSub p (restAfterFirst p s) = false) :
    containsSub p (replaceFirstL p r s) = false := by
  cases hcs : containsSub p s with
  | false =>
    rw [replaceFirst_not_contains hcs]
    exact hcs
  | true =>
    obtain ⟨v, t, hs, hrf, hra, hmin⟩ := replaceFirst_decomp p r hp s hcs
    have ht : containsSub p t = false := by rwa [hra] at hone
    rw [hrf]
    cases hcc : containsSub p (v ++ r ++ t) with
    | false => rfl
    | true =>
      exfalso
      rw [List.append_assoc] at hcc
      rcases containsSub_append_cases hcc with ⟨i, hi, hpre⟩ | hrt
      · have hu : v.drop i ≠ [] := drop_ne_nil hi
        rcases isPre_split hpre with h3 | ⟨h3, h4⟩
        · -- an occurrence entirely inside the untouched part of `v`
          have : isPre p (v.drop i ++ (p ++ t)) = true :=
            isPre_append_ext _ h3
          have hm := hmin i hi
          rw [List.append_assoc] at hm
          rw [hm] at this
          exact Bool.false_ne_true this
        · rcases Nat.lt_or_ge (v.drop i).length p.length with hlt | hge
          · -- a proper nonempty suffix of `v` continues into `r ++ t`
            have hk0 : 0 < (v.drop i).length := List.length_pos.mpr hu
            have hns := noSelfStraddle_spec h2 hk0 hlt
            rcases isPre_split h4 with h5 | ⟨h5, _⟩
            · rw [hns.1] at h5; exact Bool.false_ne_true h5
            · rw [hns.2] at h5; exact Bool.false_ne_true h5
          · -- the suffix of `v` is all of `p`: an earlier occurrence
            have heq : v.drop i = p := isPre_eq_of_length_le h3 hge
            have hm := hmin i hi
            rw [List.append_assoc, heq, isPre_append_self] at hm
            exact Bool.false_ne_true hm.symm
      · have := noStraddle_append h1 ht
        rw [this] at hrt
        exact Bool.false_ne_true hrt

-- Properties of the normalization steps.

theorem normalizeStep2_http {p1 : List Char} (h : p1 ≠ []) :
    isPre httpTok (normalizeStep2 p1) = true := by
  unfold normalizeStep2
  cases hc : (!p1.isEmpty && !(isPre httpTok p1)) with
  | true =>
    simp only [if_pos rfl]
    exact isPre_append_ext p1 (by decide)
  | false =>
    simp only [Bool.and_eq_false_iff, Bool.not_eq_false'] at hc
    rcases hc with hc | hc
    · exact absurd (List.isEmpty_iff.mp hc) h
    · simp [hc]

theorem normalizeStep2_noCrop {p1 : List Char}
    (h : containsSub cropLow p1 = false) :
    containsSub cropLow (normalizeStep2 p1) = false := by
  unfold normalizeStep2
  cases hc : (!p1.isEmpty && !(isPre httpTok p1)) with
  | true =>
    simp only [if_pos rfl]
    exact noStraddle_append (by decide) h
  | false => simpa using h

theorem normalizeStep3_cases (p2 : List Char) :
    normalizeStep3 p2 = [] ∨
      (normalizeStep3 p2 = p2 ∧
        containsSub phEmptyPoster p2 = false ∧
        containsSub phStaticEmpty p2 = false) := by
  unfold normalizeStep3
  cases hc : (containsSub phEmptyPoster p2 || containsSub phStaticEmpty p2) with
  | true => left; simp
  | false =>
    right
    simp only [Bool.or_eq_false_iff] at hc
    exact ⟨by simp, hc.1, hc.2⟩

theorem normalizeStep3_noPh (p2 : List Char) :
    containsSub phEmptyPoster (normalizeStep3 p2) = false ∧
    containsSub phStaticEmpty (normalizeStep3 p2) = false := by
  rcases normalizeStep3_cases p2 with h | ⟨h, h1, h2⟩
  · rw [h]; exact ⟨by decide, by decide⟩
  · rw [h]; exact ⟨h1, h2⟩

/-- The (b)/(c) spelling of the normalizer agrees with the (a) spelling. -/
theorem normalizeUrlB_eq (s : List Char) : normalizeUrlB s = normalizeUrl s := by
  unfold normalizeUrlB normalizeUrl
  cases hs : s.isEmpty with
  | true => simp
  | false =>
    simp only [Bool.false_eq_true, if_false]
    have hne : s ≠ [] := by
      intro h; rw [h] at hs; simp at hs
    have hp1 : replaceFirstL cropLow cropHigh s ≠ [] :=
      replaceFirst_ne_nil (by decide) hne
    have : normalizeStep2B (replaceFirstL cropLow cropHigh s) =
        normalizeStep2 (replaceFirstL cropLow cropHigh s) := by
      unfold normalizeStep2B normalizeStep2
      have : (replaceFirstL cropLow cropHigh s).isEmpty = false := by
        cases hh : (replaceFirstL cropLow cropHigh s).isEmpty with
        | false => rfl
        | true => exact absurd (List.isEmpty_iff.mp hh) hp1
      rw [this]
      simp
    rw [this]

/-- Invariant of the normalizer output on non-empty input: starts with
`http`, has no crop token left (when the input had at most one), and has no
placeholder marker. -/
theorem normalizeUrl_output_props {s : List Char} (hs : s ≠ [])
    (hone : atMostOneOcc cropLow s = true) :
    normalizeUrl s = [] ∨
      (isPre httpTok (normalizeUrl s) = true ∧
        containsSub cropLow (normalizeUrl s) = false ∧
        containsSub phEmptyPoster (normalizeUrl s) = false ∧
        containsSub phStaticEmpty (normalizeUrl s) = false) := by
  have hone' : containsSub cropLow (restAfterFirst cropLow s) = false := by
    simpa [atMostOneOcc, Bool.not_eq_true'] using hone
  have hsE : s.isEmpty = false := by
    cases hh : s.isEmpty with
    | false => rfl
    | true => exact absurd (List.isEmpty_iff.mp hh) hs
  have hp1 : replaceFirstL cropLow cropHigh s ≠ [] :=
    replaceFirst_ne_nil (by decide) hs
  have hnoc : containsSub cropLow (replaceFirstL cropLow cropHigh s) = false :=
    replaceFirst_no_more (by decide) (by decide) (by decide) s hone'
  have hhttp := normalizeStep2_http hp1
  have hnoc2 := normalizeStep2_noCrop hnoc
  unfold normalizeUrl
  rw [hsE]
  simp only [Bool.false_eq_true, if_false]
  rcases normalizeStep3_cases (normalizeStep2 (replaceFirstL cropLow cropHigh s))
    with h | ⟨h, h1, h2⟩
  · left; exact h
  · right
    rw [h]
    exact ⟨hhttp, hnoc2, h1, h2⟩

/-- A normalizer output that is non-empty is a fixed point of the
normalizer. -/
theorem normalizeUrl_fixed {z : List Char}
    (hhttp : isPre httpTok z = true)
    (hnoc : containsSub cropLow z = false)
    (hph1 : containsSub phEmptyPoster z = false)
    (hph2 : containsSub phStaticEmpty z = false) :
    normalizeUrl z = z := by
  have hz : z ≠ [] := isPre_ne_nil (by decide) hhttp
  have hzE : z.isEmpty = false := by
    cases hh : z.isEmpty with
    | false => rfl
    | true => exact absurd (List.isEmpty_iff.mp hh) hz
  unfold normalizeUrl
  rw [hzE]
  simp only [Bool.false_eq_true, if_false]
  rw [replaceFirst_not_contains hnoc]
  have h2 : normalizeStep2 z = z := by
    unfold normalizeStep2
    rw [hhttp]
    simp
  rw [h2]
  unfold normalizeStep3
  rw [hph1, hph2]
  simp

-- The HTML entity decoder (`decodeHtmlEntities`, lines 2-12).

/-- The apostrophe character (U+0027). -/
def apos : Char := Char.ofNat 39

/-- The double-quote character (U+0022). -/
def quot : Char := Char.ofNat 34

/-- Entity literal `&#039;`. -/
def entAposNum : List Char := "&#039;".toList

/-- Entity literal `&amp;`. -/
def entAmp : List Char := "&amp;".toList

/-- Entity literal `&quot;`. -/
def entQuot : List Char := "&quot;".toList

/-- Entity literal `&lt;`. -/
def entLt : List Char := "&lt;".toList

/-- Entity literal `&gt;`. -/
def entGt : List Char := "&gt;".toList

/-- Entity literal `&nbsp;`. -/
def entNbsp : List Char := "&nbsp;".toList

/-- Entity literal `&apos;`. -/
def entApos : List Char := "&apos;".toList

/-- `decodeHtmlEntities` from lines 2-12: falsy (empty) input is returned
unchanged, otherwise the seven global replacements are applied one after
another in the order they are chained in the source. -/
def decodeHtmlEntities (t : List Char) : List Char :=
  if t.isEmpty then t
  else
    replaceAllL entApos [apos]
      (replaceAllL entNbsp [' ']
        (replaceAllL entGt ['>']
          (replaceAllL entLt ['<']
            (replaceAllL entQuot [quot]
              (replaceAllL entAmp ['&']
                (replaceAllL entAposNum [apos] t))))))

theorem replaceAllGo_not_contains {p r : List Char} :
    ∀ (fuel : Nat) (s : List Char), containsSub p s = false →
      replaceAllGo p r fuel s = s := by
  intro fuel
  induction fuel with
  | zero =>
    intro s h
    cases s with
    | nil => rfl
    | cons c rest => rfl
  | succ f ih =>
    intro s h
    cases s with
    | nil => rfl
    | cons c rest =>
      simp only [containsSub, Bool.or_eq_false_iff] at h
      simp [replaceAllGo, h.1, ih rest h.2]

theorem replaceAll_not_contains {p r s : List Char}
    (h : containsSub p s = false) : replaceAllL p r s = s :=
  replaceAllGo_not_contains s.length s h

/-- A string containing none of the seven entity literals is left unchanged
by the decoder. -/
theorem decode_of_no_entities {t : List Char}
    (h1 : containsSub entAposNum t = false)
    (h2 : containsSub entAmp t = false)
    (h3 : containsSub entQuot t = false)
    (h4 : containsSub entLt t = false)
    (h5 : containsSub entGt t = false)
    (h6 : containsSub entNbsp t = false)
    (h7 : containsSub entApos t = false) :
    decodeHtmlEntities t = t := by
  unfold decodeHtmlEntities
  cases ht : t.isEmpty with
  | true => simp
  | false =>
    simp only [Bool.false_eq_true, if_false]
    rw [replaceAll_not_contains h1, replaceAll_not_contains h2,
      replaceAll_not_contains h3, replaceAll_not_contains h4,
      replaceAll_not_contains h5, replaceAll_not_contains h6,
      replaceAll_not_contains h7]

-- Data model: one extracted movie record (lines 153-159).

structure MovieRecord where
  title : List Char
  year : List Char
  director : List Char
  poster : List Char
  link : List Char
deriving DecidableEq

/-- JS `a || d` for an optional string `a`: the default is taken when the
value is absent or empty (falsy). -/
def jsOr (o : Option (List Char)) (d : List Char) : List Char :=
  match o with
  | some s => if s.isEmpty then d else s
  | none => d

/-- JS truthiness of an optional string. -/
def truthyOpt : Option (List Char) → Bool
  | none => false
  | some s => !s.isEmpty

/-- JS `m1 || m2` for two regex-match results: the first successful one. -/
def firstSome {α : Type} (a b : Option α) : Option α :=
  match a with
  | some x => some x
  | none => b

-- Strategy (a): structured-data extraction (lines 129-167).  The document is
-- modelled at the level of its decoded JSON-LD blocks: each `<script>` block
-- is either `none` (a JSON parse failure, skipped by the `try`/`catch`) or a
-- decoded block with the fields the code reads.

structure LdItem where
  name : Option (List Char)
  datePublished : Option (List Char)
  directorName : Option (List Char)
  image : Option (List Char)
  url : Option (List Char)
deriving DecidableEq

structure LdElement where
  item : Option LdItem
deriving DecidableEq

structure LdBlock where
  atType : List Char
  itemListElement : Option (List LdElement)
deriving DecidableEq

/-- The `@type` value recognized by strategy (a). -/
def itemListType : List Char := "ItemList".toList

/-- The record pushed for one linked-data item (lines 139-159).  Note that
the push is unconditional: there is no title filter in strategy (a). -/
def recordOfLdItem (it : LdItem) : MovieRecord :=
  { title := decodeHtmlEntities (jsOr it.name [])
    year := jsOr it.datePublished []
    director := jsOr it.directorName []
    poster := normalizeUrl (jsOr it.image [])
    link := jsOr it.url [] }

/-- Records contributed by one decoded block (lines 136-162). -/
def blockRecords (b : LdBlock) : List MovieRecord :=
  if b.atType = itemListType then
    match b.itemListElement with
    | none => []
    | some elems => elems.filterMap (fun e => e.item.map recordOfLdItem)
  else []

/-- Strategy (a) over the document's decoded JSON-LD blocks. -/
def strategyA (blocks : List (Option LdBlock)) : List MovieRecord :=
  blocks.foldr
    (fun ob acc =>
      (match ob with
       | none => []
       | some b => blockRecords b) ++ acc)
    []

-- Strategy (b): primary markup extraction (lines 169-222).  Each matched
-- `<li class="...listitem...">` element is modelled by the capture results of
-- the regex chains the code runs against it (`none` = that regex did not
-- match).

structure BItem where
  filmNameAttr : Option (List Char)
  filmLinkText : Option (List Char)
  yearAttr : Option (List Char)
  yearHref : Option (List Char)
  imgSrcClassImage : Option (List Char)
  imgDataSrc : Option (List Char)
  imgSrcFilm : Option (List Char)
  dataSrcFilm : Option (List Char)
  frameHref : Option (List Char)
deriving DecidableEq

/-- The whitespace set trimmed by JS `String.prototype.trim` (ASCII part plus
NBSP and BOM; the rare extra Unicode space code points are not used by any
claim). -/
def jsWhitespace : List Char :=
  [' ', Char.ofNat 9, Char.ofNat 10, Char.ofNat 13, Char.ofNat 11,
   Char.ofNat 12, Char.ofNat 160, Char.ofNat 0xFEFF]

def isJsWs (c : Char) : Bool := jsWhitespace.contains c

/-- Embedding of JS `s.trim()`. -/
def trimL (s : List Char) : List Char :=
  ((s.dropWhile isJsWs).reverse.dropWhile isJsWs).reverse

/-- Title extraction of strategy (b) (lines 176-179). -/
def bTitle (it : BItem) : List Char :=
  match firstSome it.filmNameAttr it.filmLinkText with
  | some t => decodeHtmlEntities (trimL t)
  | none => []

/-- The record retained for one (b)-strategy list item, `none` when the title
is empty (lines 212-220). -/
def recordOfBItem (it : BItem) : Option MovieRecord :=
  if (bTitle it).isEmpty then none
  else
    some
      { title := bTitle it
        year := (firstSome it.yearAttr it.yearHref).getD []
        director := []
        poster :=
          normalizeUrlB
            ((firstSome (firstSome it.imgSrcClassImage it.imgDataSrc)
                (firstSome it.imgSrcFilm it.dataSrcFilm)).getD [])
        link := normalizeLink (it.frameHref.getD []) }

def strategyB (items : List BItem) : List MovieRecord :=
  items.filterMap recordOfBItem

-- Strategy (c): secondary markup extraction (lines 224-271).

structure CItem where
  filmSlug : Option (List Char)
  altText : Option (List Char)
  src : Option (List Char)
  dataSrc : Option (List Char)
  href : Option (List Char)
deriving DecidableEq

/-- JS `\w` word characters. -/
def isWordChar (c : Char) : Bool :=
  ('a' ≤ c && c ≤ 'z') || ('A' ≤ c && c ≤ 'Z') || ('0' ≤ c && c ≤ '9') ||
    c == Char.ofNat 95

/-- Embedding of `.replace(/\b\w/g, l => l.toUpperCase())`: uppercase every
word character that is not preceded by a word character. -/
def capWordsGo : Bool → List Char → List Char
  | _, [] => []
  | prevW, c :: rest =>
    (if isWordChar c && !prevW then c.toUpper else c) ::
      capWordsGo (isWordChar c) rest

def capWords (s : List Char) : List Char := capWordsGo false s

/-- Title derivation of strategy (c) (lines 232-236): slug or alt text,
hyphens to spaces, word-initial uppercase, then entity decoding. -/
def cTitle (it : CItem) : List Char :=
  decodeHtmlEntities
    (match firstSome it.filmSlug it.altText with
     | some t => capWords (replaceAllL [Char.ofNat 45] [' '] t)
     | none => [])

/-- The record retained for one (c)-strategy list item (lines 260-268). -/
def recordOfCItem (it : CItem) : Option MovieRecord :=
  if (cTitle it).isEmpty then none
  else
    some
      { title := cTitle it
        year := []
        director := []
        poster := normalizeUrlB ((firstSome it.src it.dataSrc).getD [])
        link := normalizeLink (it.href.getD []) }

/-- Strategy (c): the optional `ul.poster-list` container and its items. -/
def strategyC (cl : Option (List CItem)) : List MovieRecord :=
  match cl with
  | none => []
  | some items => items.filterMap recordOfCItem

-- The source document, at the level the three strategies consume it, and the
-- orchestration of the three strategies (lines 127-271): each later strategy
-- pushes into the same `movies` array, guarded by `movies.length === 0`.

structure SourceDoc where
  ldBlocks : List (Option LdBlock)
  bItems : List BItem
  cItems : Option (List CItem)

def orchestrate (doc : SourceDoc) : List MovieRecord :=
  let m1 := strategyA doc.ldBlocks
  let m2 := if m1.length = 0 then m1 ++ strategyB doc.bItems else m1
  if m2.length = 0 then m2 ++ strategyC doc.cItems else m2

-- The TMDB enrichment client `getPosterFromTMDB` (lines 15-53).  The network
-- is an oracle: the outcome of the single fetch the function performs.

structure TmdbMovie where
  poster_path : Option (List Char)
deriving DecidableEq

/-- Outcome of the TMDB search fetch: the promise rejects, the response is
not ok, the parsed body has no `results` array, or it has one. -/
inductive TmdbFetch where
  | fail
  | notOk
  | noResults
  | ok (results : List TmdbMovie)
deriving DecidableEq

/-- The TMDB poster base URL `https://image.tmdb.org/t/p/w500`. -/
def w500Base : List Char := "https://image.tmdb.org/t/p/w500".toList

/-- `getPosterFromTMDB` (lines 15-53): `null` without a (truthy) API key; on
any transport failure, non-ok response, missing/empty result set or falsy
`poster_path` return `null`; otherwise the w500 URL built from the first
result's `poster_path`. -/
def getPosterFromTMDB (apiKey : Option (List Char)) (resp : TmdbFetch) :
    Option (List Char) :=
  if truthyOpt apiKey = false then none
  else
    match resp with
    | .fail => none
    | .notOk => none
    | .noResults => none
    | .ok [] => none
    | .ok (m :: _) =>
      match m.poster_path with
      | none => none
      | some p => if p.isEmpty then none else some (w500Base ++ p)

-- The enrichment batcher `enrichMoviesWithPosters` (lines 56-91).  The
-- transport oracle maps the (title, year) query of each lookup to its fetch
-- outcome; the pacing delay has no observable effect on the records.

/-- The poster test of line 73: missing poster or known placeholder. -/
def needsPoster (m : MovieRecord) : Bool :=
  m.poster.isEmpty || containsSub phEmptyPoster m.poster ||
    containsSub phStaticEmpty m.poster

/-- The per-record body of the batch map (lines 71-80): look the poster up
only when needed, and overwrite it only with a truthy result. -/
def enrichOne (apiKey : Option (List Char))
    (tr : List Char → List Char → TmdbFetch) (m : MovieRecord) : MovieRecord :=
  if needsPoster m then
    match getPosterFromTMDB apiKey (tr m.title m.year) with
    | none => m
    | some q => if q.isEmpty then m else { m with poster := q }
  else m

/-- The batch loop (lines 67-88): groups of five, processed group after
group.  The fuel only bounds recursion depth; `ms.length` is enough. -/
def enrichBatchesGo (apiKey : Option (List Char))
    (tr : List Char → List Char → TmdbFetch) :
    Nat → List MovieRecord → List MovieRecord
  | _, [] => []
  | 0, ms => ms
  | fuel + 1, m :: rest =>
    ((m :: rest).take 5).map (enrichOne apiKey tr) ++
      enrichBatchesGo apiKey tr fuel ((m :: rest).drop 5)

/-- `enrichMoviesWithPosters` (lines 56-91): unchanged without a truthy API
key or on empty input, otherwise every record is processed exactly once. -/
def enrichMoviesWithPosters (apiKey : Option (List Char))
    (tr : List Char → List Char → TmdbFetch) (movies : List MovieRecord) :
    List MovieRecord :=
  if truthyOpt apiKey = false ∨ movies.length = 0 then movies
  else enrichBatchesGo apiKey tr movies.length movies

-- The request handler (lines 93-287).

/-- Characters matched by the regex `.` (anything but a line terminator). -/
def isDotChar (c : Char) : Bool :=
  !(c == Char.ofNat 10 || c == Char.ofNat 13 || c == Char.ofNat 0x2028 ||
    c == Char.ofNat 0x2029)

/-- `https://` scheme literal. -/
def httpsScheme : List Char := "https://".toList

/-- `http://` scheme literal. -/
def httpScheme : List Char := "http://".toList

/-- `www.` literal. -/
def wwwDot : List Char := "www.".toList

/-- `letterboxd.com/` literal. -/
def lbHostSlash : List Char := "letterboxd.com/".toList

/-- `/list/` literal. -/
def listSeg : List Char := "/list/".toList

/-- The `.+\/list\/.+` tail of the validation regex: some non-empty run of
dot-characters, then `/list/`, then at least one more dot-character. -/
def tailMatches (rest : List Char) : Bool :=
  (List.range (rest.length + 1)).any fun i =>
    decide (1 ≤ i) && (rest.take i).all isDotChar &&
      isPre listSeg (rest.drop i) &&
      (match (rest.drop i).drop listSeg.length with
       | [] => false
       | c :: _ => isDotChar c)

/-- The Letterboxd URL validation regex of line 106,
`^https?:\/\/(www\.)?letterboxd\.com\/.+\/list\/.+`. -/
def validListUrl (s : List Char) : Bool :=
  match
    (if isPre httpsScheme s then some (s.drop httpsScheme.length)
     else if isPre httpScheme s then some (s.drop httpScheme.length)
     else none) with
  | none => false
  | some r1 =>
    let r2 := if isPre wwwDot r1 then r1.drop wwwDot.length else r1
    if isPre lbHostSlash r2 then tailMatches (r2.drop lbHostSlash.length)
    else false

/-- Decimal digits of a natural number (fuel-driven, `n + 1` is enough). -/
def natCharsGo : Nat → Nat → List Char → List Char
  | 0, _, acc => acc
  | fuel + 1, n, acc =>
    let d := Char.ofNat (48 + n % 10)
    if n < 10 then d :: acc else natCharsGo fuel (n / 10) (d :: acc)

/-- The decimal rendering of a status code, as interpolated by
`Failed to fetch list: ${response.status}`. -/
def natChars (n : Nat) : List Char := natCharsGo (n + 1) n []

/-- Outcome of the list-page fetch: the promise rejects with an error
message, or a response with a status arrives whose body parses to `doc`. -/
inductive ListPageFetch where
  | fail (errMsg : List Char)
  | resp (status : Nat) (doc : SourceDoc)

/-- The five distinct responses the handler can produce: 405, 400 with a
message, 404, 500 with a message, or 200 with the movie list. -/
inductive HandlerResult where
  | methodNotAllowed
  | badRequest (msg : List Char)
  | notFound
  | serverError (msg : List Char)
  | ok (movies : List MovieRecord)

/-- `POST` method literal. -/
def postMethod : List Char := "POST".toList

/-- 400 message of line 102. -/
def msgUrlRequired : List Char := "URL is required".toList

/-- 400 message of line 108. -/
def msgInvalidUrl : List Char := "Invalid Letterboxd list URL".toList

/-- Message prefix of the line-120 error. -/
def msgFailedFetch : List Char := "Failed to fetch list: ".toList

/-- Fallback 500 message of line 284. -/
def msgFallback : List Char :=
  "Failed to fetch the list. Please make sure the list is public and the URL is correct.".toList

/-- `response.ok`: status in the 200-299 range. -/
def statusOk (status : Nat) : Bool :=
  decide (200 ≤ status) && decide (status ≤ 299)

/-- The handler (lines 93-287): method check, URL presence and shape checks,
list-page fetch, non-ok statuses thrown and caught as 500 with the
status-bearing message, orchestration, 404 on zero records, enrichment,
200 with the final records. -/
def handler (method : List Char) (bodyUrl : Option (List Char))
    (page : ListPageFetch) (apiKey : Option (List Char))
    (tr : List Char → List Char → TmdbFetch) : HandlerResult :=
  if method ≠ postMethod then .methodNotAllowed
  else if truthyOpt bodyUrl = false then .badRequest msgUrlRequired
  else if validListUrl (bodyUrl.getD []) = false then .badRequest msgInvalidUrl
  else
    match page with
    | .fail errMsg =>
      .serverError (if errMsg.isEmpty then msgFallback else errMsg)
    | .resp status doc =>
      if statusOk status = false then
        .serverError (msgFailedFetch ++ natChars status)
      else
        let movies := orchestrate doc
        if movies.length = 0 then .notFound
        else .ok (enrichMoviesWithPosters apiKey tr movies)

-- Characterization of the batcher: the grouped loop is a plain map.

theorem enrichBatchesGo_eq_map (apiKey : Option (List Char))
    (tr : List Char → List Char → TmdbFetch) :
    ∀ (fuel : Nat) (ms : List MovieRecord), ms.length ≤ fuel →
      enrichBatchesGo apiKey tr fuel ms = ms.map (enrichOne apiKey tr) := by
  intro fuel
  induction fuel with
  | zero =>
    intro ms h
    cases ms with
    | nil => rfl
    | cons m rest => simp at h
  | succ f ih =>
    intro ms h
    cases ms with
    | nil => rfl
    | cons m rest =>
      have hlen : ((m :: rest).drop 5).length ≤ f := by
        simp only [List.length_drop, List.length_cons]
        simp only [List.length_cons] at h
        omega
      rw [enrichBatchesGo, ih _ hlen, ← List.map_append,
        List.take_append_drop]

/-- `enrichMoviesWithPosters` either returns its input (no truthy key) or
maps `enrichOne` over it. -/
theorem enrich_characterization (apiKey : Option (List Char))
    (tr : List Char → List Char → TmdbFetch) (ms : List MovieRecord) :
    enrichMoviesWithPosters apiKey tr ms =
      if truthyOpt apiKey = false then ms
      else ms.map (enrichOne apiKey tr) := by
  unfold enrichMoviesWithPosters
  cases hk : truthyOpt apiKey with
  | false => simp
  | true =>
    simp only [Bool.true_eq_false, false_or, if_false]
    cases ms with
    | nil => simp
    | cons m rest =>
      rw [if_neg (by simp)]
      exact enrichBatchesGo_eq_map apiKey tr _ _ (Nat.le_refl _)

-- Shape lemmas for the strategies and the orchestrator.

theorem strategyA_cons (ob : Option LdBlock) (rest : List (Option LdBlock)) :
    strategyA (ob :: rest) =
      (match ob with
       | none => []
       | some b => blockRecords b) ++ strategyA rest := rfl

theorem strategyA_append (xs ys : List (Option LdBlock)) :
    strategyA (xs ++ ys) = strategyA xs ++ strategyA ys := by
  induction xs with
  | nil => rfl
  | cons ob rest ih =>
    rw [List.cons_append, strategyA_cons, strategyA_cons, ih,
      List.append_assoc]

theorem blockRecords_eq (b : LdBlock) :
    blockRecords b =
      if b.atType = itemListType then
        (b.itemListElement.getD []).filterMap
          (fun e => e.item.map recordOfLdItem)
      else [] := by
  unfold blockRecords
  cases b.itemListElement <;> simp

theorem blockRecords_mem_shape {r : MovieRecord} {b : LdBlock}
    (h : r ∈ blockRecords b) : ∃ it, r = recordOfLdItem it := by
  rw [blockRecords_eq] at h
  by_cases hb : b.atType = itemListType
  · rw [if_pos hb] at h
    obtain ⟨e, _, heq⟩ := List.mem_filterMap.mp h
    cases hit : e.item with
    | none => rw [hit] at heq; simp at heq
    | some it =>
      rw [hit] at heq
      simp only [Option.map_some'] at heq
      exact ⟨it, (Option.some.inj heq).symm⟩
  · rw [if_neg hb] at h; simp at h

theorem strategyA_mem_shape {r : MovieRecord} {blocks : List (Option LdBlock)}
    (h : r ∈ strategyA blocks) : ∃ it, r = recordOfLdItem it := by
  induction blocks with
  | nil => simp [strategyA] at h
  | cons ob rest ih =>
    rw [strategyA_cons] at h
    rcases List.mem_append.mp h with h | h
    · cases ob with
      | none => simp at h
      | some b => exact blockRecords_mem_shape h
    · exact ih h

theorem strategyB_mem_shape {r : MovieRecord} {items : List BItem}
    (h : r ∈ strategyB items) : ∃ it, recordOfBItem it = some r := by
  obtain ⟨it, _, heq⟩ := List.mem_filterMap.mp h
  exact ⟨it, heq⟩

theorem strategyC_mem_shape {r : MovieRecord} {cl : Option (List CItem)}
    (h : r ∈ strategyC cl) : ∃ it, recordOfCItem it = some r := by
  cases cl with
  | none => simp [strategyC] at h
  | some items =>
    obtain ⟨it, _, heq⟩ := List.mem_filterMap.mp h
    exact ⟨it, heq⟩

theorem recordOfBItem_fields {it : BItem} {r : MovieRecord}
    (h : recordOfBItem it = some r) :
    r.poster =
      normalizeUrlB
        ((firstSome (firstSome it.imgSrcClassImage it.imgDataSrc)
            (firstSome it.imgSrcFilm it.dataSrcFilm)).getD []) ∧
    r.link = normalizeLink (it.frameHref.getD []) := by
  unfold recordOfBItem at h
  split at h
  · exact absurd h (by simp)
  · cases Option.some.inj h
    exact ⟨rfl, rfl⟩

theorem recordOfCItem_fields {it : CItem} {r : MovieRecord}
    (h : recordOfCItem it = some r) :
    r.poster = normalizeUrlB ((firstSome it.src it.dataSrc).getD []) ∧
    r.link = normalizeLink (it.href.getD []) := by
  unfold recordOfCItem at h
  split at h
  · exact absurd h (by simp)
  · cases Option.some.inj h
    exact ⟨rfl, rfl⟩

theorem orchestrate_mem {r : MovieRecord} {doc : SourceDoc}
    (h : r ∈ orchestrate doc) :
    r ∈ strategyA doc.ldBlocks ∨ r ∈ strategyB doc.bItems ∨
      r ∈ strategyC doc.cItems := by
  simp only [orchestrate] at h
  by_cases h1 : (strategyA doc.ldBlocks).length = 0
  · rw [if_pos h1] at h
    have hA : strategyA doc.ldBlocks = [] := List.length_eq_zero.mp h1
    rw [hA, List.nil_append] at h
    by_cases h2 : (strategyB doc.bItems).length = 0
    · rw [if_pos h2] at h
      have hB : strategyB doc.bItems = [] := List.length_eq_zero.mp h2
      rw [hB, List.nil_append] at h
      right; right; exact h
    · rw [if_neg h2] at h
      right; left; exact h
  · rw [if_neg h1, if_neg h1] at h
    left; exact h

/-- Every record the orchestrator can produce carries a poster that is the
normalizer's output on some string. -/
theorem orchestrate_poster_shape {r : MovieRecord} {doc : SourceDoc}
    (h : r ∈ orchestrate doc) : ∃ x, r.poster = normalizeUrl x := by
  rcases orchestrate_mem h with h | h | h
  · obtain ⟨it, rfl⟩ := strategyA_mem_shape h
    exact ⟨jsOr it.image [], rfl⟩
  · obtain ⟨it, heq⟩ := strategyB_mem_shape h
    exact ⟨_, ((recordOfBItem_fields heq).1).trans (normalizeUrlB_eq _)⟩
  · obtain ⟨it, heq⟩ := strategyC_mem_shape h
    exact ⟨_, ((recordOfCItem_fields heq).1).trans (normalizeUrlB_eq _)⟩

-- Claim C2: totality and idempotence of the URL normalizer.

/-- Input containing the crop token twice.  `replace` is used without the
`g` flag (line 143), so the first pass upgrades only the first token and a
second pass upgrades the second. -/
def c2DoubleCrop : List Char := "/0-230-0-345-crop/0-230-0-345-crop".toList

/-- C2 counterexample: the URL normalizer is not idempotent on the string
made of two crop tokens — the first pass rewrites only the first token, the
second pass rewrites the remaining one, so the two passes disagree. -/
theorem c2_counterexample :
    normalizeUrl (normalizeUrl c2DoubleCrop) ≠ normalizeUrl c2DoubleCrop := by
  decide

/-- C2 (amended): the URL normalizer is total (it is a function) and
idempotent on every input in which the low-resolution crop token occurs at
most once; on inputs with two or more crop tokens the single un-global
`replace` leaves a token that a second pass still rewrites. -/
theorem c2_amended_idempotent (s : List Char)
    (h : atMostOneOcc cropLow s = true) :
    normalizeUrl (normalizeUrl s) = normalizeUrl s := by
  by_cases hs : s = []
  · subst hs; rfl
  · rcases normalizeUrl_output_props hs h with hz | ⟨h1, h2, h3, h4⟩
    · rw [hz]; rfl
    · exact normalizeUrl_fixed h1 h2 h3 h4

/-- A typical poster URL with a single crop token. -/
def c2OneCrop : List Char := "/img/0-230-0-345-crop/x.jpg".toList

/-- C2 witness: the amended idempotence applied to a concrete single-token
input. -/
theorem c2_witness :
    atMostOneOcc cropLow c2OneCrop = true ∧
      normalizeUrl (normalizeUrl c2OneCrop) = normalizeUrl c2OneCrop :=
  ⟨by decide, c2_amended_idempotent c2OneCrop (by decide)⟩

-- Claim C3: shape of the normalizer output.

/-- Follows the spec's words ("an absolute `http(s)` URL"), for comparison
with the code: a string starting with a full `http://` or `https://`
scheme. -/
def specAbsoluteHttpUrl (s : List Char) : Bool :=
  isPre httpsScheme s || isPre httpScheme s

/-- A string that starts with `http` but is not an absolute URL: the code's
`startsWith('http')` test accepts it unchanged. -/
def c3HttpLike : List Char := "httpx".toList

/-- C3 counterexample: on input `httpx` the normalizer returns `httpx`
itself, which is neither empty nor an absolute `http(s)` URL. -/
theorem c3_counterexample :
    normalizeUrl c3HttpLike = c3HttpLike ∧ c3HttpLike ≠ [] ∧
      specAbsoluteHttpUrl (normalizeUrl c3HttpLike) = false := by
  decide

/-- All outputs of the normalizer are empty or start with `http`, and never
contain a placeholder marker. -/
theorem normalizeUrl_basic_props (s : List Char) :
    (normalizeUrl s = [] ∨ isPre httpTok (normalizeUrl s) = true) ∧
    containsSub phEmptyPoster (normalizeUrl s) = false ∧
    containsSub phStaticEmpty (normalizeUrl s) = false := by
  by_cases hs : s = []
  · subst hs
    exact ⟨Or.inl rfl, by decide, by decide⟩
  · have hsE : s.isEmpty = false := by
      cases hh : s.isEmpty with
      | false => rfl
      | true => exact absurd (List.isEmpty_iff.mp hh) hs
    have hp1 : replaceFirstL cropLow cropHigh s ≠ [] :=
      replaceFirst_ne_nil (by decide) hs
    have hhttp := normalizeStep2_http hp1
    unfold normalizeUrl
    rw [hsE]
    simp only [Bool.false_eq_true, if_false]
    rcases normalizeStep3_cases
        (normalizeStep2 (replaceFirstL cropLow cropHigh s)) with hz | ⟨hz, p1, p2⟩
    · rw [hz]
      exact ⟨Or.inl rfl, by decide, by decide⟩
    · rw [hz]
      exact ⟨Or.inr hhttp, p1, p2⟩

/-- C3 (amended): for every input the normalizer's output is either empty or
a string starting with `http` (not necessarily a well-formed absolute URL,
as `httpx` shows), and it never contains a placeholder marker; consequently
every record the orchestrator produces has such a poster. -/
theorem c3_amended_invariant :
    (∀ s, (normalizeUrl s = [] ∨ isPre httpTok (normalizeUrl s) = true) ∧
      containsSub phEmptyPoster (normalizeUrl s) = false ∧
      containsSub phStaticEmpty (normalizeUrl s) = false) ∧
    (∀ (doc : SourceDoc) (r : MovieRecord), r ∈ orchestrate doc →
      (r.poster = [] ∨ isPre httpTok r.poster = true) ∧
      containsSub phEmptyPoster r.poster = false ∧
      containsSub phStaticEmpty r.poster = false) := by
  refine ⟨normalizeUrl_basic_props, ?_⟩
  intro doc r h
  obtain ⟨x, hx⟩ := orchestrate_poster_shape h
  rw [hx]
  exact normalizeUrl_basic_props x

/-- A linked-data item with a crop-token poster path. -/
def c3Item : LdItem :=
  { name := some ("A".toList)
    datePublished := none
    directorName := none
    image := some ("/p/0-230-0-345-crop.jpg".toList)
    url := none }

/-- A document whose structured-data strategy yields exactly that item. -/
def c3Doc : SourceDoc :=
  { ldBlocks := [some { atType := itemListType, itemListElement := some [{ item := some c3Item }] }]
    bItems := []
    cItems := none }

/-- C3 witness: the amended invariant applied to a concrete record of a
concrete document. -/
theorem c3_witness :
    (recordOfLdItem c3Item ∈ orchestrate c3Doc) ∧
      ((recordOfLdItem c3Item).poster = [] ∨
        isPre httpTok (recordOfLdItem c3Item).poster = true) :=
  ⟨by decide, (c3_amended_invariant.2 c3Doc (recordOfLdItem c3Item) (by decide)).1⟩

-- Claim C8: the HTML entity decoder.

/-- Follows the spec's words: the single-pass reading of "replace each
occurrence of the seven known entities with its literal character".  At each
position the (mutually non-overlapping) entity literals are tried; on a
match the literal character is emitted and scanning continues after the
matched entity, which is never itself rescanned. -/
def specEntityTable : List (List Char × Char) :=
  [(entAposNum, apos), (entAmp, '&'), (entQuot, quot), (entLt, '<'),
   (entGt, '>'), (entNbsp, ' '), (entApos, apos)]

/-- Fuel-driven single-pass decoder following the spec's words;
`s.length` fuel is always enough. -/
def specOnePassGo : Nat → List Char → List Char
  | _, [] => []
  | 0, s => s
  | fuel + 1, c :: rest =>
    match specEntityTable.find? (fun e => isPre e.1 (c :: rest)) with
    | some e => e.2 :: specOnePassGo fuel ((c :: rest).drop e.1.length)
    | none => c :: specOnePassGo fuel rest

/-- Single-pass entity replacement, following the spec's words. -/
def specOnePassDecode (s : List Char) : List Char := specOnePassGo s.length s

/-- The cascading input: `&amp;lt;`. -/
def c8Cascade : List Char := "&amp;lt;".toList

/-- C8 counterexample: on `&amp;lt;` the code's sequential replacement
chain first turns `&amp;` into `&`, producing `&lt;`, which the later
`&lt;` replacement then turns into `<`; replacing each occurrence of the
known entities once would give `&lt;`. -/
theorem c8_counterexample :
    decodeHtmlEntities c8Cascade = "<".toList ∧
      specOnePassDecode c8Cascade = "&lt;".toList ∧
      decodeHtmlEntities c8Cascade ≠ specOnePassDecode c8Cascade := by
  decide

/-- The concrete title of the claim. -/
def c8ItInput : List Char := "It&#039;s".toList

/-- Its decoding, with a literal apostrophe. -/
def c8ItOutput : List Char := "It".toList ++ apos :: "s".toList

/-- C8 (amended): the decoder applies the seven replacements sequentially in
the order `&#039;`, `&amp;`, `&quot;`, `&lt;`, `&gt;`, `&nbsp;`, `&apos;`,
so an ampersand produced by the `&amp;` step can combine with the following
text and be decoded again by a later step (`&amp;lt;` becomes `<`); a string
containing none of the seven entity literals — in particular one with only
unknown entities — is returned unchanged, empty input is returned unchanged,
and `It&#039;s` decodes to `It's`. -/
theorem c8_amended_decoder :
    (∀ s, containsSub entAposNum s = false → containsSub entAmp s = false →
      containsSub entQuot s = false → containsSub entLt s = false →
      containsSub entGt s = false → containsSub entNbsp s = false →
      containsSub entApos s = false → decodeHtmlEntities s = s) ∧
    decodeHtmlEntities c8ItInput = c8ItOutput ∧
    decodeHtmlEntities [] = [] ∧
    decodeHtmlEntities c8Cascade = "<".toList := by
  refine ⟨?_, by decide, rfl, by decide⟩
  intro s h1 h2 h3 h4 h5 h6 h7
  exact decode_of_no_entities h1 h2 h3 h4 h5 h6 h7

/-- A string whose only entity is unknown to the decoder. -/
def c8Unknown : List Char := "&copy; 2024".toList

/-- C8 witness: the amended theorem applied to the unknown-entity string,
which passes through unchanged. -/
theorem c8_witness : decodeHtmlEntities c8Unknown = c8Unknown :=
  c8_amended_decoder.1 c8Unknown (by decide) (by decide) (by decide)
    (by decide) (by decide) (by decide) (by decide)

-- Claim C1: the structured-data strategy and empty titles.

/-- A linked-data element whose item carries no fields at all — in
particular no name. -/
def c1NamelessItem : LdItem :=
  { name := none, datePublished := none, directorName := none,
    image := none, url := none }

/-- A block list with one qualifying block containing that element. -/
def c1Block : LdBlock :=
  { atType := itemListType
    itemListElement := some [{ item := some c1NamelessItem }] }

def c1Blocks : List (Option LdBlock) := [some c1Block]

/-- The all-empty record the strategy pushes for it. -/
def c1EmptyRec : MovieRecord :=
  { title := [], year := [], director := [], poster := [], link := [] }

/-- C1 counterexample: strategy (a) pushes records unconditionally — there
is no title filter in lines 136-161 — so a list element referencing an item
without a name yields a retained record whose title is empty. -/
theorem c1_counterexample :
    strategyA c1Blocks = [c1EmptyRec] ∧ c1EmptyRec.title = [] := by
  decide

/-- C1 (amended): strategy (a) retains one record for every list element
with a present item reference, wherever it sits in the document, regardless
of the decoded name; when the name is absent the retained record's title is
empty.  (Only strategies (b) and (c) filter on a non-empty title.) -/
theorem c1_amended_retention
    (pre post : List (Option LdBlock)) (b : LdBlock)
    (es1 es2 : List LdElement) (it : LdItem)
    (hty : b.atType = itemListType)
    (hel : b.itemListElement = some (es1 ++ { item := some it } :: es2)) :
    recordOfLdItem it ∈ strategyA (pre ++ some b :: post) ∧
      (it.name = none → (recordOfLdItem it).title = []) := by
  constructor
  · rw [strategyA_append, strategyA_cons]
    refine List.mem_append.mpr (Or.inr (List.mem_append.mpr (Or.inl ?_)))
    show recordOfLdItem it ∈ blockRecords b
    rw [blockRecords_eq, if_pos hty, hel]
    refine List.mem_filterMap.mpr ⟨{ item := some it }, ?_, rfl⟩
    simp [List.mem_append]
  · intro hn
    simp only [recordOfLdItem, jsOr, hn]
    decide

/-- C1 witness: the amended retention applied to the concrete nameless
document. -/
theorem c1_witness :
    recordOfLdItem c1NamelessItem ∈ strategyA c1Blocks ∧
      (recordOfLdItem c1NamelessItem).title = [] :=
  have h := c1_amended_retention [] [] c1Block [] [] c1NamelessItem rfl rfl
  ⟨h.1, h.2 rfl⟩

-- Claim C4: orchestrator exclusivity.

/-- C4: the orchestrator's result comes from exactly one strategy — (a) when
it is non-empty; otherwise (b) when it is non-empty; otherwise (c).  In
particular when (a) is empty and (b) is not, the result is exactly (b)'s,
never a union. -/
theorem c4_orchestrator_exclusive (doc : SourceDoc) :
    (strategyA doc.ldBlocks ≠ [] → orchestrate doc = strategyA doc.ldBlocks) ∧
    (strategyA doc.ldBlocks = [] → strategyB doc.bItems ≠ [] →
      orchestrate doc = strategyB doc.bItems) ∧
    (strategyA doc.ldBlocks = [] → strategyB doc.bItems = [] →
      orchestrate doc = strategyC doc.cItems) := by
  refine ⟨?_, ?_, ?_⟩
  · intro hA
    have h1 : ¬(strategyA doc.ldBlocks).length = 0 := fun h =>
      hA (List.length_eq_zero.mp h)
    simp only [orchestrate]
    rw [if_neg h1, if_neg h1]
  · intro hA hB
    have h2 : ¬(strategyB doc.bItems).length = 0 := fun h =>
      hB (List.length_eq_zero.mp h)
    simp only [orchestrate]
    rw [hA]
    simp [h2]
  · intro hA hB
    simp only [orchestrate]
    rw [hA, hB]
    simp

/-- A list item with only a film name, for the witness document. -/
def c4BItem : BItem :=
  { filmNameAttr := some ("A".toList), filmLinkText := none,
    yearAttr := none, yearHref := none, imgSrcClassImage := none,
    imgDataSrc := none, imgSrcFilm := none, dataSrcFilm := none,
    frameHref := none }

/-- A document on which strategy (a) finds nothing and strategy (b) finds
one record. -/
def c4Doc : SourceDoc :=
  { ldBlocks := [], bItems := [c4BItem], cItems := none }

/-- C4 witness: on the concrete document the orchestrator returns exactly
strategy (b)'s result. -/
theorem c4_witness : orchestrate c4Doc = strategyB c4Doc.bItems :=
  (c4_orchestrator_exclusive c4Doc).2.1 rfl (by decide)

-- Claim C9: link handling in strategies (b) and (c).

/-- A list item whose film link contains the placeholder marker as part of
its (legitimate) slug. -/
def c9Item : BItem :=
  { filmNameAttr := some ("A".toList), filmLinkText := none,
    yearAttr := none, yearHref := none, imgSrcClassImage := none,
    imgDataSrc := none, imgSrcFilm := none, dataSrcFilm := none,
    frameHref := some ("/film/empty-poster/".toList) }

/-- The record strategy (b) retains for it. -/
def c9Rec : MovieRecord :=
  { title := "A".toList, year := [], director := [], poster := [],
    link := "https://letterboxd.com/film/empty-poster/".toList }

/-- C9 counterexample: strategy (b) only origin-prefixes the link — it does
not apply the URL normalizer to it — so the retained record's link contains
the placeholder marker, while the URL normalizer would have returned
empty. -/
theorem c9_counterexample :
    strategyB [c9Item] = [c9Rec] ∧
      containsSub phEmptyPoster c9Rec.link = true ∧
      normalizeUrlB ("/film/empty-poster/".toList) = [] ∧
      c9Rec.link ≠ normalizeUrlB ("/film/empty-poster/".toList) := by
  decide

/-- Everything the link post-processing guarantees. -/
theorem normalizeLink_props (l : List Char) :
    (normalizeLink l = l ∨ normalizeLink l = lbOrigin ++ l) ∧
    (normalizeLink l = [] ∨ isPre httpTok (normalizeLink l) = true) := by
  unfold normalizeLink
  cases hc : (!l.isEmpty && !(isPre httpTok l)) with
  | true =>
    exact ⟨Or.inr rfl, Or.inr (isPre_append_ext l (by decide))⟩
  | false =>
    refine ⟨Or.inl rfl, ?_⟩
    simp only [Bool.and_eq_false_iff, Bool.not_eq_false'] at hc
    rcases hc with hc | hc
    · exact Or.inl (List.isEmpty_iff.mp hc)
    · exact Or.inr hc

/-- C9 (amended): in strategies (b) and (c), only the origin-prefixing step
of the URL normalizer is applied to the extracted link — no crop upgrade and
no placeholder filtering — so every retained record's link is either empty
or a string starting with `http`, but it may contain a placeholder
marker. -/
theorem c9_amended_links :
    (∀ l, normalizeLink l = l ∨ normalizeLink l = lbOrigin ++ l) ∧
    (∀ l, normalizeLink l = [] ∨ isPre httpTok (normalizeLink l) = true) ∧
    (∀ (items : List BItem) (r : MovieRecord), r ∈ strategyB items →
      r.link = [] ∨ isPre httpTok r.link = true) ∧
    (∀ (cl : Option (List CItem)) (r : MovieRecord), r ∈ strategyC cl →
      r.link = [] ∨ isPre httpTok r.link = true) := by
  refine ⟨fun l => (normalizeLink_props l).1, fun l => (normalizeLink_props l).2,
    ?_, ?_⟩
  · intro items r h
    obtain ⟨it, heq⟩ := strategyB_mem_shape h
    rw [(recordOfBItem_fields heq).2]
    exact (normalizeLink_props _).2
  · intro cl r h
    obtain ⟨it, heq⟩ := strategyC_mem_shape h
    rw [(recordOfCItem_fields heq).2]
    exact (normalizeLink_props _).2

/-- A (b)-strategy item with an ordinary relative film link. -/
def c9WItem : BItem :=
  { filmNameAttr := some ("B".toList), filmLinkText := none,
    yearAttr := none, yearHref := none, imgSrcClassImage := none,
    imgDataSrc := none, imgSrcFilm := none, dataSrcFilm := none,
    frameHref := some ("/film/b/".toList) }

/-- Its retained record. -/
def c9WRec : MovieRecord :=
  { title := "B".toList, year := [], director := [], poster := [],
    link := "https://letterboxd.com/film/b/".toList }

/-- C9 witness: the amended link property applied to a concrete retained
record. -/
theorem c9_witness : c9WRec.link = [] ∨ isPre httpTok c9WRec.link = true :=
  c9_amended_links.2.2.1 [c9WItem] c9WRec (by decide)

-- Claim C5: frame conditions of the enrichment batcher.

/-- Per-record frame: `enrichOne` only ever touches the poster field, and
does nothing at all to a record that does not need a poster. -/
theorem enrichOne_frame (key : Option (List Char))
    (tr : List Char → List Char → TmdbFetch) (a : MovieRecord) :
    (enrichOne key tr a).title = a.title ∧
    (enrichOne key tr a).year = a.year ∧
    (enrichOne key tr a).director = a.director ∧
    (enrichOne key tr a).link = a.link ∧
    (needsPoster a = false → enrichOne key tr a = a) := by
  unfold enrichOne
  cases hn : needsPoster a with
  | false => simp
  | true =>
    cases hg : getPosterFromTMDB key (tr a.title a.year) with
    | none => simp [hn]
    | some q =>
      by_cases hq : q = []
      · simp [hn, hq]
      · simp [hn, hq]

/-- C5: the batcher returns the same records in the same order and count,
changes no field besides the poster, leaves records whose poster is neither
empty nor a placeholder untouched by the lookup, and returns its input
entirely unchanged when no (truthy) credential is configured or the input is
empty. -/
theorem c5_batcher_frame (key : Option (List Char))
    (tr : List Char → List Char → TmdbFetch) (ms : List MovieRecord) :
    (enrichMoviesWithPosters key tr ms).length = ms.length ∧
    (∀ (i : Nat) (a b : MovieRecord), ms[i]? = some a →
      (enrichMoviesWithPosters key tr ms)[i]? = some b →
      b.title = a.title ∧ b.year = a.year ∧ b.director = a.director ∧
        b.link = a.link ∧ (needsPoster a = false → b = a)) ∧
    (truthyOpt key = false → enrichMoviesWithPosters key tr ms = ms) ∧
    (ms = [] → enrichMoviesWithPosters key tr ms = ms) := by
  rw [enrich_characterization]
  cases hk : truthyOpt key with
  | false =>
    refine ⟨rfl, ?_, fun _ => rfl, fun _ => rfl⟩
    intro i a b ha hb
    have hb' : ms[i]? = some b := hb
    rw [ha] at hb'
    cases Option.some.inj hb'
    exact ⟨rfl, rfl, rfl, rfl, fun _ => rfl⟩
  | true =>
    refine ⟨List.length_map _ _, ?_, ?_, fun h => by rw [h]; rfl⟩
    · intro i a b ha hb
      have hb' : (List.map (enrichOne key tr) ms)[i]? = some b := hb
      rw [List.getElem?_map, ha, Option.map_some'] at hb'
      cases Option.some.inj hb'
      exact enrichOne_frame key tr a
    · intro h
      cases h

/-- A record and transport for the C5 witness. -/
def c5Rec : MovieRecord :=
  { title := "M".toList, year := [], director := [], poster := [], link := [] }

def c5Tr : List Char → List Char → TmdbFetch := fun _ _ => TmdbFetch.notOk

/-- C5 witness: with no credential configured the batcher returns its input
unchanged. -/
theorem c5_witness : enrichMoviesWithPosters none c5Tr [c5Rec] = [c5Rec] :=
  (c5_batcher_frame none c5Tr [c5Rec]).2.2.1 rfl

-- Claim C6: the enrichment client contract.

/-- A configured credential for the scenario-4 conjunct. -/
def c6Key : Option (List Char) := some ("k".toList)

/-- A transport whose search always matches with poster path `/abc.jpg`. -/
def c6Tr : List Char → List Char → TmdbFetch :=
  fun _ _ => TmdbFetch.ok [{ poster_path := some ("/abc.jpg".toList) }]

/-- A record whose poster contains the `empty-poster` placeholder marker. -/
def c6Sc4Rec : MovieRecord :=
  { title := "T".toList, year := "2020".toList, director := [],
    poster := "https://a.ltrbxd.com/empty-poster.jpg".toList, link := [] }

/-- The same record with the TMDB w500 poster substituted. -/
def c6Sc4Out : MovieRecord :=
  { title := "T".toList, year := "2020".toList, director := [],
    poster := "https://image.tmdb.org/t/p/w500/abc.jpg".toList, link := [] }

/-- C6: the enrichment client returns `null` immediately without a (truthy)
credential; it returns `null` — and, being a total function, never throws —
on a transport failure, a non-ok response, a missing or empty result set, or
a missing poster path; and with a first result carrying a non-empty poster
path `p` it returns exactly the w500 base URL concatenated with `p`.  The
final conjunct is end-to-end scenario 4: the placeholder-postered record is
enriched to the `w500/abc.jpg` poster. -/
theorem c6_client_contract (key : Option (List Char)) (resp : TmdbFetch) :
    (truthyOpt key = false → getPosterFromTMDB key resp = none) ∧
    getPosterFromTMDB key TmdbFetch.fail = none ∧
    getPosterFromTMDB key TmdbFetch.notOk = none ∧
    getPosterFromTMDB key TmdbFetch.noResults = none ∧
    getPosterFromTMDB key (TmdbFetch.ok []) = none ∧
    (∀ (m : TmdbMovie) (rest : List TmdbMovie),
      m.poster_path = none →
      getPosterFromTMDB key (TmdbFetch.ok (m :: rest)) = none) ∧
    (∀ (m : TmdbMovie) (rest : List TmdbMovie) (p : List Char),
      truthyOpt key = true → m.poster_path = some p → p ≠ [] →
      getPosterFromTMDB key (TmdbFetch.ok (m :: rest)) =
        some (w500Base ++ p)) ∧
    enrichOne c6Key c6Tr c6Sc4Rec = c6Sc4Out := by
  cases hk : truthyOpt key with
  | false =>
    have hbase : ∀ r, getPosterFromTMDB key r = none := by
      intro r
      unfold getPosterFromTMDB
      rw [hk]
      rfl
    exact ⟨fun _ => hbase resp, hbase _, hbase _, hbase _, hbase _,
      fun m rest _ => hbase _,
      fun m rest p h _ _ => absurd h (by decide), by decide⟩
  | true =>
    have hmain : ∀ r, getPosterFromTMDB key r =
        (match r with
         | TmdbFetch.fail => none
         | TmdbFetch.notOk => none
         | TmdbFetch.noResults => none
         | TmdbFetch.ok [] => none
         | TmdbFetch.ok (m :: _) =>
           (match m.poster_path with
            | none => none
            | some p =>
              if p.isEmpty then none else some (w500Base ++ p))) := by
      intro r
      unfold getPosterFromTMDB
      rw [hk]
      rfl
    refine ⟨fun h => absurd h (by decide), hmain _, hmain _, hmain _,
      hmain _, ?_, ?_, by decide⟩
    · intro m rest hm
      refine (hmain _).trans ?_
      simp [hm]
    · intro m rest p _ hm hp
      refine (hmain _).trans ?_
      simp [hm, List.isEmpty_iff, hp]

/-- The first search result used by the C6 witness. -/
def c6WMovie : TmdbMovie := { poster_path := some ("/abc.jpg".toList) }

/-- C6 witness: the client contract applied at a concrete credential and
response with poster path `/abc.jpg`. -/
theorem c6_witness :
    getPosterFromTMDB c6Key (TmdbFetch.ok [c6WMovie]) =
      some (w500Base ++ ("/abc.jpg".toList)) :=
  (c6_client_contract c6Key TmdbFetch.fail).2.2.2.2.2.2.1 c6WMovie []
    ("/abc.jpg".toList) (by decide) rfl (by decide)

-- Claim C10: failed lookups preserve the poster.

/-- A failed lookup leaves the whole record untouched. -/
theorem enrichOne_id_of_none {key : Option (List Char)}
    {tr : List Char → List Char → TmdbFetch} {a : MovieRecord}
    (hg : getPosterFromTMDB key (tr a.title a.year) = none) :
    enrichOne key tr a = a := by
  unfold enrichOne
  cases hn : needsPoster a with
  | false => rfl
  | true => rw [hg]; rfl

/-- The poster after enrichment is the old poster or a non-empty string: the
batcher never clears a poster. -/
theorem enrichOne_poster (key : Option (List Char))
    (tr : List Char → List Char → TmdbFetch) (a : MovieRecord) :
    (enrichOne key tr a).poster = a.poster ∨
      (enrichOne key tr a).poster ≠ [] := by
  unfold enrichOne
  cases hn : needsPoster a with
  | false => exact Or.inl rfl
  | true =>
    cases hg : getPosterFromTMDB key (tr a.title a.year) with
    | none => exact Or.inl rfl
    | some q =>
      by_cases hq : q = []
      · exact Or.inl (by simp [hq])
      · exact Or.inr (by simp [hq])

/-- Mapping a function that fixes every member fixes the list. -/
theorem map_id_of_mem {α : Type} (f : α → α) :
    ∀ (l : List α), (∀ a ∈ l, f a = a) → l.map f = l := by
  intro l
  induction l with
  | nil => intro _; rfl
  | cons a rest ih =>
    intro h
    rw [List.map_cons, h a (by simp), ih (fun b hb => h b (by simp [hb]))]

/-- C10: a record whose enrichment lookup yields no match keeps its exact
prior poster (the whole record is unchanged); and the batcher never
overwrites a poster with an empty value — every output poster is the input
poster or non-empty.  In particular when every lookup fails the batcher
returns its input unchanged. -/
theorem c10_no_match_preserves (key : Option (List Char))
    (tr : List Char → List Char → TmdbFetch) (ms : List MovieRecord) :
    ((∀ t y, getPosterFromTMDB key (tr t y) = none) →
      enrichMoviesWithPosters key tr ms = ms) ∧
    (∀ (i : Nat) (a b : MovieRecord), ms[i]? = some a →
      (enrichMoviesWithPosters key tr ms)[i]? = some b →
      (getPosterFromTMDB key (tr a.title a.year) = none → b = a) ∧
      (b.poster = a.poster ∨ b.poster ≠ [])) := by
  rw [enrich_characterization]
  cases hk : truthyOpt key with
  | false =>
    refine ⟨fun _ => rfl, ?_⟩
    intro i a b ha hb
    have hb' : ms[i]? = some b := hb
    rw [ha] at hb'
    cases Option.some.inj hb'
    exact ⟨fun _ => rfl, Or.inl rfl⟩
  | true =>
    constructor
    · intro hall
      exact map_id_of_mem _ ms (fun a _ => enrichOne_id_of_none (hall _ _))
    · intro i a b ha hb
      have hb' : (List.map (enrichOne key tr) ms)[i]? = some b := hb
      rw [List.getElem?_map, ha, Option.map_some'] at hb'
      cases Option.some.inj hb'
      exact ⟨fun hg => enrichOne_id_of_none hg, enrichOne_poster key tr a⟩

/-- Key, transport and record for the C10 witness: the lookup always fails
at the transport level. -/
def c10Key : Option (List Char) := some ("k".toList)

def c10Tr : List Char → List Char → TmdbFetch := fun _ _ => TmdbFetch.fail

def c10Rec : MovieRecord :=
  { title := "M".toList, year := [], director := [],
    poster := "https://a.ltrbxd.com/empty-poster.jpg".toList, link := [] }

/-- C10 witness: with a credential configured but every lookup failing, the
batcher returns the placeholder-postered record unchanged. -/
theorem c10_witness :
    enrichMoviesWithPosters c10Key c10Tr [c10Rec] = [c10Rec] :=
  (c10_no_match_preserves c10Key c10Tr [c10Rec]).1 (fun _ _ => rfl)

-- Claim C7: a non-success list-page fetch yields the transport error.

/-- A valid URL is non-empty (it starts with a scheme). -/
theorem validListUrl_ne_nil {url : List Char} (h : validListUrl url = true) :
    url ≠ [] := by
  intro hnil
  rw [hnil] at h
  exact absurd h (by decide)

/-- C7: whenever the handler is invoked with method `POST` and a valid list
URL and the list-page fetch resolves with a non-success status, the result
is the 500 outcome whose message carries the upstream status — independent
of the document content and of the enrichment configuration — and this
outcome is distinct from the validation (400) and not-found (404)
outcomes. -/
theorem c7_transport_error (url : List Char) (status : Nat) (doc : SourceDoc)
    (key : Option (List Char)) (tr : List Char → List Char → TmdbFetch)
    (hv : validListUrl url = true) (hst : statusOk status = false) :
    handler postMethod (some url) (ListPageFetch.resp status doc) key tr =
      HandlerResult.serverError (msgFailedFetch ++ natChars status) ∧
    (∀ m, HandlerResult.serverError (msgFailedFetch ++ natChars status) ≠
      HandlerResult.badRequest m) ∧
    HandlerResult.serverError (msgFailedFetch ++ natChars status) ≠
      HandlerResult.notFound := by
  refine ⟨?_, ?_, ?_⟩
  case refine_2 => exact fun m h => HandlerResult.noConfusion h
  case refine_3 => exact fun h => HandlerResult.noConfusion h
  have hne : url ≠ [] := validListUrl_ne_nil hv
  have htr : truthyOpt (some url) = true := by
    have hh : url.isEmpty = false := by
      cases hh : url.isEmpty with
      | false => rfl
      | true => exact absurd (List.isEmpty_iff.mp hh) hne
    simp [truthyOpt, hh]
  unfold handler
  rw [if_neg (by simp), htr]
  simp only [Bool.true_eq_false, if_false]
  rw [Option.getD_some, hv]
  simp only [Bool.true_eq_false, if_false]
  rw [hst]
  simp

/-- A concrete valid list URL. -/
def c7Url : List Char := "https://letterboxd.com/u/list/watchlist/".toList

/-- An arbitrary document body (never inspected on the 404 path). -/
def c7Doc : SourceDoc := { ldBlocks := [], bItems := [], cItems := none }

def c7Tr : List Char → List Char → TmdbFetch := fun _ _ => TmdbFetch.notOk

/-- C7 witness: a fetch returning HTTP 404 yields the 500 outcome carrying
the message `Failed to fetch list: 404`. -/
theorem c7_witness :
    handler postMethod (some c7Url) (ListPageFetch.resp 404 c7Doc) none c7Tr =
      HandlerResult.serverError (msgFailedFetch ++ natChars 404) :=
  (c7_transport_error c7Url 404 c7Doc none c7Tr (by decide) (by decide)).1
